import Mathlib

/-!
Verification of the PDF toolbox core (`src/main.py`): the page-range parser
`_parse_page_ranges`, output-path resolution `create_output_path`, the
temp-file-then-move write protocol `_write_pdf_with_tempfile`, the merge,
split and convert operations, and the worker stop/cancel protocol.

Python strings are embedded as `List Char`; Python's `str.split`, `str.strip`,
`str.lower`, `str.replace`, `str.zfill`, `str`/`int` conversion are given
char-list implementations below so that every definition evaluates inside the
kernel.  Paths are lists of components of an absolute path; `Path.resolve()`
is modelled as the identity on such already-absolute paths.  The filesystem is
a record of existing directories and files (file contents abstracted as the
list of page payloads written).
-/

namespace PdfBox

/-- Whitespace characters stripped by Python's `str.strip()` (ASCII subset). -/
def pyIsSpace (c : Char) : Bool :=
  c == ' ' || c == '\t' || c == '\n' || c == '\r' || c == '\x0b' || c == '\x0c'

/-- Python `str.strip()` on a char list. -/
def trimChars (l : List Char) : List Char :=
  ((l.dropWhile pyIsSpace).reverse.dropWhile pyIsSpace).reverse

/-- ASCII lower-casing of one character, as done by `str.lower()` on the
ASCII inputs relevant here. -/
def lowerChar (c : Char) : Char :=
  if 'A' ≤ c ∧ c ≤ 'Z' then Char.ofNat (c.toNat + 32) else c

/-- Python `str.lower()` on a char list (ASCII). -/
def lowerChars (l : List Char) : List Char := l.map lowerChar

/-- Python `str.split(sep)` for a one-character separator: splits on every
occurrence, keeping empty pieces; the empty string yields `[""]`. -/
def splitOnChar (sep : Char) : List Char → List (List Char)
  | [] => [[]]
  | c :: cs =>
    if c == sep then [] :: splitOnChar sep cs
    else
      match splitOnChar sep cs with
      | [] => [[c]]
      | w :: ws => (c :: w) :: ws

/-- Python `s.replace("end", rep)`: replace every (left-to-right,
non-overlapping) occurrence of the substring `end`. -/
def replaceEndWith (rep : List Char) : List Char → List Char
  | 'e' :: 'n' :: 'd' :: cs => rep ++ replaceEndWith rep cs
  | c :: cs => c :: replaceEndWith rep cs
  | [] => []

/-- The decimal digit character for `d < 10`. -/
def digitChar (d : Nat) : Char := Char.ofNat (48 + d)

/-- Fuel-driven accumulation of the decimal digits of `n`. -/
def natDigitsGo : Nat → Nat → List Char
  | 0, _ => []
  | fuel + 1, n =>
    if n = 0 then [] else natDigitsGo fuel (n / 10) ++ [digitChar (n % 10)]

/-- Python `str(n)` for a natural number: its decimal digit string. -/
def natDigits (n : Nat) : List Char :=
  if n = 0 then ['0'] else natDigitsGo (n + 1) n

/-- Python `str.zfill(width)` on a plain digit string: left-pad with `'0'`
up to `width` characters. -/
def zfill (width : Nat) (s : List Char) : List Char :=
  List.replicate (width - s.length) '0' ++ s

/-- Reads a non-empty all-decimal-digit string into a number. -/
def digitsToNatGo : List Char → Nat → Option Nat
  | [], acc => some acc
  | c :: cs, acc =>
    if '0' ≤ c ∧ c ≤ '9' then digitsToNatGo cs (acc * 10 + (c.toNat - 48))
    else none

/-- Digit-string reader: `none` on the empty string or any non-digit. -/
def digitsToNat : List Char → Option Nat
  | [] => none
  | c :: cs => digitsToNatGo (c :: cs) 0

/-- Python `int(s)`: strip surrounding whitespace, allow one optional sign,
then require a non-empty run of decimal digits; `none` models the
`ValueError` raised on anything else. -/
def pyParseInt (s : List Char) : Option Int :=
  match trimChars s with
  | '-' :: cs => (digitsToNat cs).map (fun n => -(n : Int))
  | '+' :: cs => (digitsToNat cs).map (fun n => (n : Int))
  | cs => (digitsToNat cs).map (fun n => (n : Int))

/-- Python `sorted(list(set(l)))`: the strictly ascending enumeration of the
distinct elements of `l`. -/
def dedupSort (l : List Nat) : List Nat :=
  (l.insertionSort (· ≤ ·)).dedup

/-- One comma-delimited token of a range segment (`main.py` lines 142-165):
strip and lower-case it, substitute `"end"` by the decimal string of
`total_pages`, then either read it as an `a-b` range (accepted when
`0 < a ≤ b ≤ total_pages`, contributing pages `a..b`) or as a single page
number (accepted when it lies in `[1, total_pages]`); every malformed or
out-of-range token contributes nothing. -/
def parsePart (part0 : List Char) (total_pages : Nat) : List Nat :=
  let part := lowerChars (trimChars part0)
  if part = [] then []
  else
    let resolved := replaceEndWith (natDigits total_pages) part
    if resolved.contains '-' then
      match splitOnChar '-' resolved with
      | [a, b] =>
        match pyParseInt a, pyParseInt b with
        | some s, some e =>
          if s ≤ 0 ∨ e < s ∨ e > (total_pages : Int) then []
          else List.range' s.toNat (e.toNat + 1 - s.toNat)
        | _, _ => []
      | _ => []
    else
      match pyParseInt resolved with
      | some p => if p ≤ 0 ∨ p > (total_pages : Int) then [] else [p.toNat]
      | none => []

/-- All pages accepted from one semicolon-delimited segment, in token order
(the Python code accumulates them into a set; the set's contents equal the
contents of this list). -/
def segmentPages (seg : List Char) (total_pages : Nat) : List Nat :=
  (splitOnChar ',' (trimChars seg)).foldl
    (fun acc part => acc ++ parsePart part total_pages) []

/-- `_parse_page_ranges` (`main.py` lines 126-170): the empty spec yields no
groups; otherwise split on `;`, collect each segment's accepted pages, and
emit `sorted(list(<the set>))` for every segment whose accepted set is
non-empty. -/
def parse_page_ranges (ranges_str : String) (total_pages : Nat) : List (List Nat) :=
  if ranges_str.data = [] then []
  else
    (splitOnChar ';' ranges_str.data).foldl
      (fun acc seg =>
        let pages := segmentPages seg total_pages
        if pages = [] then acc else acc ++ [dedupSort pages]) []

example : parse_page_ranges "1-3,5;7-end" 10 = [[1, 2, 3, 5], [7, 8, 9, 10]] := by decide

example : parse_page_ranges "" 5 = [] := by decide

example : parse_page_ranges "1-abc,2" 10 = [[2]] := by decide

example : parse_page_ranges "0-2" 9 = [] := by decide

example : parse_page_ranges "5-3" 9 = [] := by decide

/-! ### Filesystem model

Absolute paths are lists of components; `Path.resolve()` / `os.path` string
manipulation is modelled componentwise (`dirname` drops the last component,
`join` appends one).  A filesystem is the set of existing directories plus
the existing files with their contents (a PDF file's content is abstracted
as the list of page payloads written into it, each page a `Nat`). -/

abbrev FPath := List String

structure FS where
  dirs : List FPath
  files : List (FPath × List Nat)
deriving DecidableEq

/-- Content of the file at `p`, if one exists. -/
def FS.fileAt (fs : FS) (p : FPath) : Option (List Nat) :=
  (fs.files.find? (fun e => decide (e.1 = p))).map (fun e => e.2)

/-- Whether a file exists at `p`. -/
def FS.isFile (fs : FS) (p : FPath) : Bool :=
  fs.files.any (fun e => decide (e.1 = p))

/-- Whether a directory exists at `p` (`os.path.isdir`). -/
def FS.isDir (fs : FS) (p : FPath) : Bool :=
  decide (p ∈ fs.dirs)

/-- Create or overwrite the file at `p` with content `c`. -/
def FS.setFile (fs : FS) (p : FPath) (c : List Nat) : FS :=
  { fs with files := (p, c) :: fs.files.filter (fun e => decide (e.1 ≠ p)) }

/-- `os.unlink`: remove the file at `p` if present. -/
def FS.removeFile (fs : FS) (p : FPath) : FS :=
  { fs with files := fs.files.filter (fun e => decide (e.1 ≠ p)) }

/-- The non-empty prefixes of a path: the directories
`mkdir(parents=True)` must create or find. -/
def ancestorsOf (p : FPath) : List FPath :=
  (List.range p.length).map (fun i => p.take (i + 1))

/-- Add a directory path to the list unless already present. -/
def insertDir (d : List FPath) (q : FPath) : List FPath :=
  if q ∈ d then d else d ++ [q]

/-- `Path.mkdir(parents=True, exist_ok=True)` / `os.makedirs(..., exist_ok=True)`:
fails (`OSError`) when the path or an ancestor exists as a regular file;
otherwise creates every missing directory on the way, succeeding silently
when the directory already exists. -/
def FS.mkdirAll (fs : FS) (p : FPath) : Except String FS :=
  if (ancestorsOf p).any (fun q => fs.isFile q) then
    Except.error "创建子文件夹失败"
  else
    Except.ok { fs with dirs := (ancestorsOf p).foldl insertDir fs.dirs }

/-- The output-placement configuration dict (`output_config` in `main.py`):
its `"mode"` key selects the variant, `"subfolder_name"` / `"path"` are the
optional keys the respective modes read. -/
inductive OutputMode
  | source_dir
  | new_subdir_in_source (subfolder_name : Option String)
  | custom_dir (path : Option FPath)
  | unknown
deriving DecidableEq

/-- `create_output_path` (`main.py` lines 77-112): compute the full target
path for `target_filename` under the configured placement, creating the
subdirectory in `new_subdir_in_source` mode; `Except.error` models the
`ValueError` raised on an invalid configuration or a failed `mkdir`. -/
def create_output_path (fs : FS) (source_file_for_ref_dir : FPath)
    (output_config : OutputMode) (target_filename : String) :
    Except String (FPath × FS) :=
  match output_config with
  | .source_dir =>
    Except.ok (source_file_for_ref_dir.dropLast ++ [target_filename], fs)
  | .new_subdir_in_source name =>
    let subfolder0 := String.mk (trimChars (name.getD "output_files").data)
    let subfolder := if subfolder0 = "" then "output_files" else subfolder0
    let output_subdir := source_file_for_ref_dir.dropLast ++ [subfolder]
    match fs.mkdirAll output_subdir with
    | .error e => .error e
    | .ok fs1 => .ok (output_subdir ++ [target_filename], fs1)
  | .custom_dir path? =>
    match path? with
    | none => .error "自定义路径无效或不存在。"
    | some p =>
      if fs.isDir p then .ok (p ++ [target_filename], fs)
      else .error "自定义路径无效或不存在。"
  | .unknown => .error "未知的输出模式"

/-- Render a component path as the string the Python code would report. -/
def pathStr (p : FPath) : String := String.intercalate "/" p

/-- Outcome of one `shutil.move`: `moved` is a same-filesystem atomic
rename, or a cross-filesystem copy that ran to completion followed by
deletion of the source; `copyFailed k` is a cross-filesystem move whose
copy phase raised after only the first `k` pages had reached the
destination — the truncated destination file and the source file are both
left in place and the exception propagates.  `NamedTemporaryFile` is called
without `dir=`, so the temporary file lives in the system temporary
directory and the cross-filesystem case is the normal one whenever the
destination is on a different mount. -/
inductive MoveOutcome
  | moved
  | copyFailed (k : Nat)
deriving DecidableEq

/-- `shutil.move src dst`: rename when possible, otherwise copy then delete
the source; a failure mid-copy leaves a truncated destination and keeps the
source.  The returned flag is `false` when the move raised. -/
def shutil_move (fs : FS) (src dst : FPath) (mv : MoveOutcome) : FS × Bool :=
  match fs.fileAt src with
  | none => (fs, false)
  | some c =>
    match mv with
    | .moved => ((fs.removeFile src).setFile dst c, true)
    | .copyFailed k => (fs.setFile dst (c.take k), false)

/-- `_write_pdf_with_tempfile` (`main.py` lines 173-195): create a fresh
temporary file (in the system temporary directory — `NamedTemporaryFile` is
given no `dir=`), write the document into it (`write_ok = false` models
`writer.write` raising), then `shutil.move` it onto `out_path`.  On any
exception — a failed write or a failed move — the cleanup handler unlinks
the temporary file if it still exists and the exception propagates
(returned flag `false`); a destination file partially written by a failed
cross-filesystem move is left behind, since nothing removes it. -/
def write_pdf_with_tempfile (fs : FS) (temp_path out_path : FPath)
    (pages : List Nat) (write_ok : Bool) (mv : MoveOutcome) : FS × Bool :=
  let fs1 := fs.setFile temp_path []
  if write_ok then
    let fs2 := fs1.setFile temp_path pages
    match shutil_move fs2 temp_path out_path mv with
    | (fs3, true) => (fs3, true)
    | (fs3, false) => (fs3.removeFile temp_path, false)
  else
    (fs1.removeFile temp_path, false)

/-- Per-operation result record (the Python result dicts with keys
`status` / `file_path` / `error_message`). -/
inductive OpStatus | success | failure | cancelled
deriving DecidableEq

structure OpResult where
  status : OpStatus
  file_path : Option String
  error_message : Option String
deriving DecidableEq

/-- One input PDF as the operations see it: its path and the outcome of
reading it (`none` models `is_valid_pdf` returning false / `PdfReader`
raising; `some pages` the page payloads of a valid document). -/
structure PdfInput where
  path : FPath
  pdf : Option (List Nat)
deriving DecidableEq

/-- `merge_pdf_documents` (`main.py` lines 294-367): reject the batch when
any input is invalid, then when it is empty; otherwise concatenate all pages
in input order, resolve the output path, write to a fresh temporary file and
move it into place.  `write_ok = false` models `writer.write` raising and
`mv` the outcome of the `shutil.move`; on either exception the `except`
converts it to a failure result and the `finally` unlinks the leftover
temporary file — a destination file partially written by a failed move is
not cleaned up. -/
def merge_pdf_documents (fs : FS) (input_pdf_paths : List PdfInput)
    (output_dir_config : OutputMode) (merged_filename : String)
    (temp_path : FPath) (write_ok : Bool) (mv : MoveOutcome) : FS × OpResult :=
  if (input_pdf_paths.filter (fun f => f.pdf.isNone)) ≠ [] then
    (fs, ⟨.failure, none, some "无效的PDF文件"⟩)
  else if input_pdf_paths = [] then
    (fs, ⟨.failure, none, some "没有可合并的文件。"⟩)
  else
    let all_pages := (input_pdf_paths.map (fun f => f.pdf.getD [])).flatten
    let ref := (input_pdf_paths.headD ⟨[], none⟩).path
    match create_output_path fs ref output_dir_config merged_filename with
    | .error e => (fs, ⟨.failure, none, some e⟩)
    | .ok (out_path, fs1) =>
      match write_pdf_with_tempfile fs1 temp_path out_path all_pages write_ok mv with
      | (fs2, true) => (fs2, ⟨.success, some (pathStr out_path), none⟩)
      | (fs2, false) => (fs2, ⟨.failure, none, some "合并PDF时发生错误"⟩)

/-! ### Split -/

/-- The single source document of a split: its path, the pieces of its file
name (`os.path.splitext(os.path.basename(...))`), and the outcome of reading
it (`none` models `is_valid_pdf` failing). -/
structure SplitSrc where
  source_path : FPath
  base_name : String
  ext : String
  pdf : Option (List Nat)

/-- The `split_options` dict: its `"type"` string and the `"ranges_str"`
value (defaulted to `""` by `.get`). -/
structure SplitOptions where
  type : String
  ranges_str : String

/-- Python `str(n)`. -/
def natDigitsStr (n : Nat) : String := String.mk (natDigits n)

/-- One output file of a split: resolve the target path and write through the
temp-file protocol; any exception in either step is caught per output and
recorded as that output's failure (with the bare filename), leaving the other
outputs unaffected (`main.py` lines 231-236 and 272-277). -/
def splitWriteOne (fs : FS) (doc : SplitSrc) (cfg : OutputMode)
    (output_filename : String) (content : List Nat) (temp : FPath) (ok : Bool)
    (mv : MoveOutcome) : FS × OpResult :=
  match create_output_path fs doc.source_path cfg output_filename with
  | .error e => (fs, ⟨.failure, some output_filename, some e⟩)
  | .ok (out_path, fs1) =>
    match write_pdf_with_tempfile fs1 temp out_path content ok mv with
    | (fs2, true) => (fs2, ⟨.success, some (pathStr out_path), none⟩)
    | (fs2, false) => (fs2, ⟨.failure, some output_filename, some "写入失败"⟩)

/-- The `all_pages_separately` loop (`main.py` lines 223-242): one output per
page, named `<base>_page_<i+1><ext>` with the 1-based index not zero-padded.
`temps i` is the fresh temporary path, `oks i` the write outcome and
`moves i` the move outcome used for the `i`-th output. -/
def splitAllPagesGo (doc : SplitSrc) (cfg : OutputMode)
    (temps : Nat → FPath) (oks : Nat → Bool) (moves : Nat → MoveOutcome) :
    FS → List Nat → Nat → FS × List OpResult
  | fs, [], _ => (fs, [])
  | fs, c :: rest, i =>
    let output_filename := doc.base_name ++ "_page_" ++ natDigitsStr (i + 1) ++ doc.ext
    let s1 := splitWriteOne fs doc cfg output_filename [c] (temps i) (oks i) (moves i)
    let s2 := splitAllPagesGo doc cfg temps oks moves s1.1 rest (i + 1)
    (s2.1, s1.2 :: s2.2)

/-- `reader.pages[p - 1]` for every page of a group, in order: `none` models
the `IndexError` raised by the first out-of-bounds access. -/
def extractPages (pages : List Nat) : List Nat → Option (List Nat)
  | [] => some []
  | p :: rest =>
    match pages[p - 1]?, extractPages pages rest with
    | some c, some cs => some (c :: cs)
    | _, _ => none

/-- Failure message produced when an exception escapes the split's page loop
to the outer handler (`main.py` lines 287-290). -/
def splitOuterErrorMsg : String := "处理时发生错误: list index out of range"

/-- The by-ranges loop (`main.py` lines 256-283): one output per non-empty
parsed group, pages fetched by 1-based index, file named from the group's
first/last page, a `_split_<idx+1>` marker added only when more than one
group exists.  An `IndexError` while fetching pages escapes to the outer
`except`, which appends a single failure after the results produced so far. -/
def splitRangesGo (doc : SplitSrc) (cfg : OutputMode) (pages : List Nat)
    (numGroups : Nat) (temps : Nat → FPath) (oks : Nat → Bool)
    (moves : Nat → MoveOutcome) :
    FS → List (List Nat) → Nat → FS × List OpResult
  | fs, [], _ => (fs, [])
  | fs, g :: rest, idx =>
    if g = [] then splitRangesGo doc cfg pages numGroups temps oks moves fs rest (idx + 1)
    else
      match extractPages pages g with
      | none => (fs, [⟨.failure, none, some splitOuterErrorMsg⟩])
      | some content =>
        if content = [] then
          splitRangesGo doc cfg pages numGroups temps oks moves fs rest (idx + 1)
        else
          let range_desc :=
            if g.length > 1 then natDigitsStr (g.headD 0) ++ "-" ++ natDigitsStr (g.getLastD 0)
            else natDigitsStr (g.headD 0)
          let suffix :=
            if numGroups > 1 then "_split_" ++ natDigitsStr (idx + 1) ++ "_pages_" ++ range_desc
            else "_pages_" ++ range_desc
          let output_filename := doc.base_name ++ suffix ++ doc.ext
          let s1 := splitWriteOne fs doc cfg output_filename content (temps idx) (oks idx)
            (moves idx)
          let s2 := splitRangesGo doc cfg pages numGroups temps oks moves s1.1 rest (idx + 1)
          (s2.1, s1.2 :: s2.2)

/-- `split_pdf_document` (`main.py` lines 198-291): reject an invalid source
with a single failure; in `all_pages_separately` mode emit one output per
page; in `range` mode parse the spec against the document's page count,
returning a single "cannot parse" failure when a non-empty spec yields no
groups and a single "no ranges" failure when the spec was empty, and
otherwise one output per parsed group. -/
def split_pdf_document (fs : FS) (doc : SplitSrc) (cfg : OutputMode)
    (opts : SplitOptions) (temps : Nat → FPath) (oks : Nat → Bool)
    (moves : Nat → MoveOutcome) : FS × List OpResult :=
  match doc.pdf with
  | none => (fs, [⟨.failure, none, some "无效的PDF文件"⟩])
  | some pages =>
    let total := pages.length
    if opts.type = "all_pages_separately" then
      splitAllPagesGo doc cfg temps oks moves fs pages 0
    else if opts.type = "range" then
      let groups := parse_page_ranges opts.ranges_str total
      if groups = [] ∧ opts.ranges_str ≠ "" then
        (fs, [⟨.failure, none,
          some ("无法解析页码范围: '" ++ opts.ranges_str ++ "'。请检查格式。")⟩])
      else if groups = [] then
        (fs, [⟨.failure, none, some "未提供有效的拆分范围。"⟩])
      else
        splitRangesGo doc cfg pages groups.length temps oks moves fs groups 0
    else
      (fs, [⟨.failure, none, some "未知的拆分类型"⟩])

/-! ### Convert (rasterize) and the worker stop protocol

`PdfWorker.stop` sets `_should_stop` (and forces a resume so a paused poll
loop can observe it); `convert_pdf_to_images` reads the flag once at the top
of each file iteration and once, via `check_paused`, before each page.  The
successive values those reads observe are modelled by an oracle
`stop : Nat → Bool` indexed by a running read counter; the flag is only ever
set, never cleared, which corresponds to a monotone oracle. -/

structure ConvInput where
  path : String
  base_name : String
  source_dir : String
  pdf : Option Nat
deriving DecidableEq

structure ConvResult where
  status : OpStatus
  file_path : String
  output_dir : Option String
  pages : Option Nat
  error_message : Option String
deriving DecidableEq

/-- Image file name for one page (`main.py` lines 462-463):
`<base>_page_<N>.<fmt>` with `N` zero-padded to the width of the decimal
string of the document's total page count. -/
def convImageName (base_name : String) (total_pages : Nat)
    (image_format : String) (page_num : Nat) : String :=
  base_name ++ "_page_" ++
    String.mk (zfill (natDigits total_pages).length (natDigits page_num)) ++
    "." ++ image_format

/-- Whether `pix.save` runs at all: only for the (case-insensitive) formats
`png` and `jpg` (`main.py` lines 467-470). -/
def convSaves (image_format : String) : Bool :=
  decide (lowerChars image_format.data = "png".data) ||
    decide (lowerChars image_format.data = "jpg".data)

/-- Output directory for one input file (`main.py` lines 427-432); `none`
models the `NameError` on an unrecognized `save_option` (the variable is
never assigned), which the per-file handler turns into a failure. -/
def convOutputDir (save_option : String) (source_dir output_dir base_name : String) :
    Option String :=
  if save_option = "source_dir" then some source_dir
  else if save_option = "custom_dir" then some output_dir
  else if save_option = "new_subdir_in_source" then
    some (source_dir ++ "/" ++ base_name ++ "_images")
  else none

/-- Page selection for one file (`main.py` lines 404-415): the flattened
parser groups when a range spec was given, else all pages; deduplicated and
sorted either way. -/
def convSelection (page_range_str : String) (total : Nat) : List Nat :=
  let sel0 := if page_range_str ≠ "" then (parse_page_ranges page_range_str total).flatten
              else List.range' 1 total
  dedupSort sel0

/-- The page loop of one file (`main.py` lines 439-476): before each page the
worker polls the stop flag (one oracle read); on observing it the loop
aborts, reporting cancellation; otherwise an out-of-range page number is
skipped and an in-range page is rendered and saved.  Returns the image paths
written, the advanced read counter, and whether the loop was cancelled. -/
def convertPagesGo (stop : Nat → Bool) (total : Nat) (saves : Bool)
    (mkImg : Nat → String) : List Nat → Nat → List String × Nat × Bool
  | [], k => ([], k, false)
  | p :: rest, k =>
    if stop k then ([], k + 1, true)
    else if p < 1 ∨ p > total then
      convertPagesGo stop total saves mkImg rest (k + 1)
    else
      let s := convertPagesGo stop total saves mkImg rest (k + 1)
      ((if saves then [mkImg p] else []) ++ s.1, s.2)

structure ConvParams where
  resolution : Nat
  image_format : String
  save_option : String
  output_dir : String
  page_range_str : String

/-- The file loop of `convert_pdf_to_images` (`main.py` lines 387-500): at
the top of each iteration the stop flag is read once; observing it appends a
cancellation record for the pending file and stops.  Otherwise the file is
opened (failure caught per file), its page selection computed, and its pages
converted; a cancellation inside the page loop records the in-flight file as
cancelled and returns the accumulated results immediately.  Returns the
result records and all image paths written. -/
def convertFilesGo (P : ConvParams) (stop : Nat → Bool) :
    List ConvInput → Nat → List ConvResult × List String
  | [], _ => ([], [])
  | f :: rest, k =>
    if stop k then
      ([⟨.cancelled, f.path, none, none, some "用户取消操作"⟩], [])
    else
      match f.pdf with
      | none =>
        let s := convertFilesGo P stop rest (k + 1)
        (⟨.failure, f.path, none, none, some "打开PDF失败"⟩ :: s.1, s.2)
      | some total =>
        let sel := convSelection P.page_range_str total
        if sel = [] then
          let s := convertFilesGo P stop rest (k + 1)
          (⟨.failure, f.path, none, none, some "没有有效的页面可供转换"⟩ :: s.1, s.2)
        else
          match convOutputDir P.save_option f.source_dir P.output_dir f.base_name with
          | none =>
            let s := convertFilesGo P stop rest (k + 1)
            (⟨.failure, f.path, none, none, some "未定义输出目录"⟩ :: s.1, s.2)
          | some odir =>
            let pg := convertPagesGo stop total (convSaves P.image_format)
              (fun p => odir ++ "/" ++ convImageName f.base_name total P.image_format p)
              sel (k + 1)
            if pg.2.2 then
              ([⟨.cancelled, f.path, none, none, some "用户取消操作"⟩], pg.1)
            else
              let s := convertFilesGo P stop rest pg.2.1
              (⟨.success, f.path, some odir, some sel.length, none⟩ :: s.1, pg.1 ++ s.2)

/-- `convert_pdf_to_images`: run the file loop from read counter `0`. -/
def convert_pdf_to_images (P : ConvParams) (stop : Nat → Bool)
    (pdf_files : List ConvInput) : List ConvResult × List String :=
  convertFilesGo P stop pdf_files 0

/-- `MainWindow.execute_action`, merge branch (`main.py` lines 928-932):
strip the entered file name, substitute the default when empty, and append
`".pdf"` unless the name already ends in it case-insensitively. -/
def normalize_merge_filename (s : String) : String :=
  let f0 := String.mk (trimChars s.data)
  let f1 := if f0 = "" then "merged_document.pdf" else f0
  if List.isSuffixOf ".pdf".data (lowerChars f1.data) then f1 else f1 ++ ".pdf"

/-! ## Parser lemmas -/

theorem foldl_append_flatten {α β : Type} (f : α → List β) :
    ∀ (l : List α) (acc : List β),
      l.foldl (fun a x => a ++ f x) acc = acc ++ (l.map f).flatten := by
  intro l
  induction l with
  | nil => intro acc; simp
  | cons x xs ih => intro acc; simp [ih]

theorem segmentPages_eq_flatten (seg : List Char) (total : Nat) :
    segmentPages seg total
      = ((splitOnChar ',' (trimChars seg)).map (fun part => parsePart part total)).flatten := by
  unfold segmentPages
  simpa using foldl_append_flatten (fun part => parsePart part total)
    (splitOnChar ',' (trimChars seg)) []

theorem mem_segmentPages {seg : List Char} {total p : Nat} :
    p ∈ segmentPages seg total ↔
      ∃ part ∈ splitOnChar ',' (trimChars seg), p ∈ parsePart part total := by
  rw [segmentPages_eq_flatten, List.mem_flatten]
  constructor
  · rintro ⟨l, hl, hp⟩
    rcases List.mem_map.1 hl with ⟨part, hpart, rfl⟩
    exact ⟨part, hpart, hp⟩
  · rintro ⟨part, hpart, hp⟩
    exact ⟨_, List.mem_map_of_mem _ hpart, hp⟩

theorem mem_dedupSort {l : List Nat} {a : Nat} : a ∈ dedupSort l ↔ a ∈ l := by
  unfold dedupSort
  rw [List.mem_dedup]
  exact (List.perm_insertionSort _ l).mem_iff

theorem sorted_lt_dedupSort (l : List Nat) : List.Sorted (· < ·) (dedupSort l) := by
  have hs : List.Sorted (· ≤ ·) (List.insertionSort (· ≤ ·) l) :=
    List.sorted_insertionSort _ l
  have h2 : List.Sorted (· ≤ ·) (dedupSort l) :=
    List.Pairwise.sublist (List.dedup_sublist _) hs
  exact h2.lt_of_le (List.nodup_dedup _)

theorem dedupSort_ne_nil {l : List Nat} (h : l ≠ []) : dedupSort l ≠ [] := by
  cases l with
  | nil => exact absurd rfl h
  | cons a l' =>
    exact List.ne_nil_of_mem (mem_dedupSort.mpr (List.mem_cons_self a l'))

theorem dedupSort_eq_self {l : List Nat} (h : List.Sorted (· < ·) l) : dedupSort l = l := by
  unfold dedupSort
  rw [List.Sorted.insertionSort_eq h.le_of_lt]
  exact List.dedup_eq_self.mpr h.nodup

theorem parsePart_bounds {part : List Char} {total p : Nat}
    (hp : p ∈ parsePart part total) : 1 ≤ p ∧ p ≤ total := by
  simp only [parsePart] at hp
  split at hp
  · simp at hp
  · split at hp
    · split at hp
      · rename_i a b
        split at hp
        · rename_i s e hse
          split at hp
          · simp at hp
          · rename_i hcond
            rw [List.mem_range'_1] at hp
            push_neg at hcond
            omega
        · simp at hp
      · simp at hp
    · split at hp
      · rename_i q hq
        split at hp
        · simp at hp
        · rename_i hcond
          push_neg at hcond
          simp at hp
          omega
      · simp at hp

theorem foldl_groups_general (total : Nat) :
    ∀ (l : List (List Char)) (acc : List (List Nat)),
      l.foldl (fun acc seg =>
          let pages := segmentPages seg total
          if pages = [] then acc else acc ++ [dedupSort pages]) acc
        = acc ++ l.filterMap (fun seg =>
            if segmentPages seg total = [] then none
            else some (dedupSort (segmentPages seg total))) := by
  intro l
  induction l with
  | nil => intro acc; simp
  | cons x xs ih =>
    intro acc
    by_cases hx : segmentPages x total = []
    · simp [hx, ih]
    · simp [hx, ih]

theorem mem_parse_page_ranges {s : String} {total : Nat} {g : List Nat} :
    g ∈ parse_page_ranges s total ↔
      s.data ≠ [] ∧ ∃ seg ∈ splitOnChar ';' s.data,
        segmentPages seg total ≠ [] ∧ g = dedupSort (segmentPages seg total) := by
  unfold parse_page_ranges
  split
  · rename_i h; simp [h]
  · rename_i h
    rw [foldl_groups_general]
    simp only [List.nil_append, List.mem_filterMap]
    constructor
    · rintro ⟨seg, hseg, hval⟩
      by_cases hne : segmentPages seg total = []
      · rw [if_pos hne] at hval; exact absurd hval (by simp)
      · rw [if_neg hne] at hval
        exact ⟨h, seg, hseg, hne, (Option.some.inj hval).symm⟩
    · rintro ⟨-, seg, hseg, hne, rfl⟩
      exact ⟨seg, hseg, by rw [if_neg hne]⟩

/-- C1: on a 10-page document the spec string `"1-3,5;7-end"` parses to
exactly the groups `[[1,2,3,5],[7,8,9,10]]`: semicolons delimit groups,
commas delimit sub-ranges within a group, and the literal substring `"end"`
is replaced by the decimal string of `total_pages` before numeric parsing. -/
theorem claim_c1_parse_example :
    parse_page_ranges "1-3,5;7-end" 10 = [[1, 2, 3, 5], [7, 8, 9, 10]] := by decide

/-- C8: every group produced by the page-range parser is non-empty, strictly
ascending (hence duplicate-free), and contains only page numbers in
`[1, total_pages]` (first conjunct); the output has exactly one group —
the sorted deduplication of the accepted pages — for each semicolon
segment whose accepted set is non-empty, so a segment whose tokens were all
rejected contributes no group (second conjunct). -/
theorem claim_c8_group_invariants (s : String) (total : Nat) :
    (∀ g ∈ parse_page_ranges s total,
        g ≠ [] ∧ List.Sorted (· < ·) g ∧ g.Nodup ∧ ∀ p ∈ g, 1 ≤ p ∧ p ≤ total)
    ∧ (s.data ≠ [] →
        parse_page_ranges s total
          = (splitOnChar ';' s.data).filterMap (fun seg =>
              if segmentPages seg total = [] then none
              else some (dedupSort (segmentPages seg total)))) := by
  constructor
  · intro g hg
    rcases mem_parse_page_ranges.1 hg with ⟨-, seg, hseg, hne, rfl⟩
    refine ⟨dedupSort_ne_nil hne, sorted_lt_dedupSort _, (sorted_lt_dedupSort _).nodup, ?_⟩
    intro p hp
    rcases mem_segmentPages.1 (mem_dedupSort.1 hp) with ⟨part, hpart, hpp⟩
    exact parsePart_bounds hpp
  · intro hne
    unfold parse_page_ranges
    rw [if_neg hne, foldl_groups_general]
    simp

/-- Witness for C8 at the spec's example input. -/
theorem claim_c8_witness :
    ([1, 2, 3, 5] ∈ parse_page_ranges "1-3,5;7-end" 10
      ∧ ([1, 2, 3, 5] ≠ [] ∧ List.Sorted (· < ·) [1, 2, 3, 5] ∧
          List.Nodup [1, 2, 3, 5] ∧ ∀ p ∈ [1, 2, 3, 5], 1 ≤ p ∧ p ≤ 10))
    ∧ parse_page_ranges "1-3,5;7-end" 10
        = (splitOnChar ';' "1-3,5;7-end".data).filterMap (fun seg =>
            if segmentPages seg 10 = [] then none
            else some (dedupSort (segmentPages seg 10))) :=
  ⟨⟨by decide, (claim_c8_group_invariants "1-3,5;7-end" 10).1 [1, 2, 3, 5] (by decide)⟩,
   (claim_c8_group_invariants "1-3,5;7-end" 10).2 (by decide)⟩

theorem splitOnChar_of_not_contains {c : Char} {l : List Char}
    (h : l.contains c = false) : splitOnChar c l = [l] := by
  induction l with
  | nil => rfl
  | cons x xs ih =>
    rw [List.contains_cons, Bool.or_eq_false_iff] at h
    have hx : ¬((x == c) = true) := by
      simp only [beq_iff_eq]
      intro hxc
      rw [← hxc] at h
      simp at h
    simp only [splitOnChar, if_neg hx, ih h.2]

/-- C2: the parser is total and skips malformed tokens independently: the
segment's accepted pages decompose token-by-token (first conjunct), every
token's accepted pages survive into the segment's group no matter what the
other tokens look like (second conjunct), and a token is rejected —
contributing nothing — when it fails integer parsing, when a range has
`start ≤ 0`, `end < start` or `end > total_pages`, when either range piece
fails integer parsing, or when splitting on `-` yields more than two pieces
(Python's unpack `ValueError`). -/
theorem claim_c2_skip_malformed (total : Nat) (seg part a b : List Char) (s e : Int) :
    (segmentPages seg total
        = ((splitOnChar ',' (trimChars seg)).map (fun q => parsePart q total)).flatten)
    ∧ (part ∈ splitOnChar ',' (trimChars seg) → ∀ p ∈ parsePart part total,
        segmentPages seg total ≠ [] ∧ p ∈ dedupSort (segmentPages seg total))
    ∧ ((replaceEndWith (natDigits total) (lowerChars (trimChars part))).contains '-' = false →
        pyParseInt (replaceEndWith (natDigits total) (lowerChars (trimChars part))) = none →
        parsePart part total = [])
    ∧ (splitOnChar '-' (replaceEndWith (natDigits total) (lowerChars (trimChars part))) = [a, b] →
        pyParseInt a = some s → pyParseInt b = some e →
        (s ≤ 0 ∨ e < s ∨ e > (total : Int)) → parsePart part total = [])
    ∧ (splitOnChar '-' (replaceEndWith (natDigits total) (lowerChars (trimChars part))) = [a, b] →
        (pyParseInt a = none ∨ pyParseInt b = none) → parsePart part total = [])
    ∧ (2 < (splitOnChar '-' (replaceEndWith (natDigits total) (lowerChars (trimChars part)))).length →
        parsePart part total = [])
    ∧ ((replaceEndWith (natDigits total) (lowerChars (trimChars part))).contains '-' = false →
        pyParseInt (replaceEndWith (natDigits total) (lowerChars (trimChars part))) = some s →
        (s ≤ 0 ∨ s > (total : Int)) → parsePart part total = []) := by
  refine ⟨segmentPages_eq_flatten seg total, ?_, ?_, ?_, ?_, ?_, ?_⟩
  · intro hpart p hp
    have hmem : p ∈ segmentPages seg total := mem_segmentPages.2 ⟨part, hpart, hp⟩
    exact ⟨List.ne_nil_of_mem hmem, mem_dedupSort.2 hmem⟩
  · intro hnc hpn
    by_cases hpe : lowerChars (trimChars part) = []
    · simp [parsePart, hpe]
    · simp [parsePart, hpe, hnc, hpn]
      intro hmem
      exact absurd hmem (by simpa using hnc)
  · intro hsplit hs he hd
    by_cases hpe : lowerChars (trimChars part) = []
    · simp [parsePart, hpe]
    · have hc : (replaceEndWith (natDigits total) (lowerChars (trimChars part))).contains '-'
          = true := by
        cases hcc : (replaceEndWith (natDigits total) (lowerChars (trimChars part))).contains '-'
        · rw [splitOnChar_of_not_contains hcc] at hsplit
          simp at hsplit
        · rfl
      simp only [parsePart, hpe, hc, hsplit, hs, he, if_false, if_true, ite_false, ite_true]
      simp [hpe, if_pos hd]
  · intro hsplit hnone
    by_cases hpe : lowerChars (trimChars part) = []
    · simp [parsePart, hpe]
    · have hc : (replaceEndWith (natDigits total) (lowerChars (trimChars part))).contains '-'
          = true := by
        cases hcc : (replaceEndWith (natDigits total) (lowerChars (trimChars part))).contains '-'
        · rw [splitOnChar_of_not_contains hcc] at hsplit
          simp at hsplit
        · rfl
      rcases hnone with ha | hb
      · simp [parsePart, hpe, hc, hsplit, ha]
        intro hnotmem
        exact absurd (by simpa using hc) hnotmem
      · cases hpa : pyParseInt a <;>
          · simp [parsePart, hpe, hc, hsplit, hpa, hb]
            intro hnotmem
            exact absurd (by simpa using hc) hnotmem
  · intro hlen
    by_cases hpe : lowerChars (trimChars part) = []
    · simp [parsePart, hpe]
    · have hc : (replaceEndWith (natDigits total) (lowerChars (trimChars part))).contains '-'
          = true := by
        cases hcc : (replaceEndWith (natDigits total) (lowerChars (trimChars part))).contains '-'
        · rw [splitOnChar_of_not_contains hcc] at hlen
          simp at hlen
        · rfl
      rcases hl : splitOnChar '-' (replaceEndWith (natDigits total) (lowerChars (trimChars part)))
        with - | ⟨x, - | ⟨y, - | ⟨z, zs⟩⟩⟩
      · rw [hl] at hlen; simp at hlen
      · rw [hl] at hlen; simp at hlen
      · rw [hl] at hlen; simp at hlen
      · simp [parsePart, hpe, hc, hl]
        intro hnotmem
        exact absurd (by simpa using hc) hnotmem
  · intro hnc hps hout
    by_cases hpe : lowerChars (trimChars part) = []
    · simp [parsePart, hpe]
    · simp [parsePart, hpe, hnc, hps]
      rw [if_neg (by simpa using hnc), if_pos hout]

/-- Witness for C2: in segment `"1-abc,2"` the token `"1-abc"` is rejected
(its second range piece fails integer parsing) while the valid token `"2"`
still contributes page 2 to the segment's group. -/
theorem claim_c2_witness :
    (segmentPages "1-abc,2".data 10 ≠ [] ∧ 2 ∈ dedupSort (segmentPages "1-abc,2".data 10))
    ∧ parsePart "1-abc".data 10 = [] :=
  ⟨(claim_c2_skip_malformed 10 "1-abc,2".data "2".data [] [] 0 0).2.1 (by decide) 2 (by decide),
   (claim_c2_skip_malformed 10 "1-abc,2".data "1-abc".data "1".data "abc".data 0 0).2.2.2.2.1
     (by decide) (Or.inr (by decide))⟩

theorem parse_page_ranges_bounds {s : String} {total : Nat} {g : List Nat}
    (hg : g ∈ parse_page_ranges s total) : ∀ p ∈ g, 1 ≤ p ∧ p ≤ total := by
  rcases mem_parse_page_ranges.1 hg with ⟨-, seg, hseg, hne, rfl⟩
  intro p hp
  rcases mem_segmentPages.1 (mem_dedupSort.1 hp) with ⟨part, hpart, hpp⟩
  exact parsePart_bounds hpp

theorem extractPages_isSome {pages : List Nat} {g : List Nat}
    (h : ∀ p ∈ g, p - 1 < pages.length) : (extractPages pages g).isSome = true := by
  induction g with
  | nil => rfl
  | cons p rest ih =>
    have hp : p - 1 < pages.length := h p (List.mem_cons_self p rest)
    have hrest := ih (fun q hq => h q (List.mem_cons_of_mem _ hq))
    simp only [extractPages]
    rw [List.getElem?_eq_getElem hp]
    cases hsome : extractPages pages rest with
    | none => rw [hsome] at hrest; simp at hrest
    | some cs => rfl

theorem mkdirAll_error {fs : FS} {p : FPath} {e : String}
    (h : fs.mkdirAll p = .error e) : e = "创建子文件夹失败" := by
  unfold FS.mkdirAll at h
  split at h
  · exact (Except.error.inj h).symm
  · exact absurd h (by simp)

theorem create_output_path_error_cases {fs : FS} {src : FPath} {cfg : OutputMode}
    {fn : String} {e : String} (h : create_output_path fs src cfg fn = .error e) :
    e = "创建子文件夹失败" ∨ e = "自定义路径无效或不存在。" ∨ e = "未知的输出模式" := by
  rcases cfg with - | name | path? | -
  · simp [create_output_path] at h
  · simp only [create_output_path] at h
    cases hm : FS.mkdirAll fs
        (src.dropLast ++
          [if String.mk (trimChars (name.getD "output_files").data) = "" then "output_files"
           else String.mk (trimChars (name.getD "output_files").data)]) with
    | error e' =>
      rw [hm] at h
      exact Or.inl ((mkdirAll_error hm).symm ▸ (Except.error.inj h).symm)
    | ok fs1 => rw [hm] at h; exact absurd h (by simp)
  · rcases path? with - | p
    · simp only [create_output_path] at h
      exact Or.inr (Or.inl (Except.error.inj h).symm)
    · simp only [create_output_path] at h
      split at h
      · exact absurd h (by simp)
      · exact Or.inr (Or.inl (Except.error.inj h).symm)
  · simp only [create_output_path] at h
    exact Or.inr (Or.inr (Except.error.inj h).symm)

theorem splitWriteOne_no_index_error {fs : FS} {doc : SplitSrc} {cfg : OutputMode}
    {fn : String} {content : List Nat} {temp : FPath} {ok : Bool} {mv : MoveOutcome} :
    (splitWriteOne fs doc cfg fn content temp ok mv).2.error_message
      ≠ some splitOuterErrorMsg := by
  unfold splitWriteOne
  cases hc : create_output_path fs doc.source_path cfg fn with
  | error e =>
    intro hcontra
    simp only at hcontra
    have he : e = splitOuterErrorMsg := Option.some.inj hcontra
    rcases create_output_path_error_cases hc with h1 | h1 | h1 <;>
      · rw [h1] at he; exact absurd he (by decide)
  | ok pfs =>
    obtain ⟨outp, fs1⟩ := pfs
    cases hw : write_pdf_with_tempfile fs1 temp outp content ok mv with
    | mk fs2 b =>
      cases b with
      | true =>
        simp [hw]
      | false =>
        intro hcontra
        simp only [hw] at hcontra
        exact absurd (Option.some.inj hcontra) (by decide)

theorem splitRangesGo_no_index_error {doc : SplitSrc} {cfg : OutputMode}
    {pages : List Nat} {numGroups : Nat} {temps : Nat → FPath} {oks : Nat → Bool}
    {moves : Nat → MoveOutcome} :
    ∀ (groups : List (List Nat)),
      (∀ g ∈ groups, (extractPages pages g).isSome = true) →
      ∀ (fs : FS) (idx : Nat) (r : OpResult),
        r ∈ (splitRangesGo doc cfg pages numGroups temps oks moves fs groups idx).2 →
        r.error_message ≠ some splitOuterErrorMsg := by
  intro groups
  induction groups with
  | nil => intro _ fs idx r hr; simp [splitRangesGo] at hr
  | cons g rest ih =>
    intro hgs fs idx r hr
    simp only [splitRangesGo] at hr
    by_cases hg : g = []
    · rw [if_pos hg] at hr
      exact ih (fun q hq => hgs q (List.mem_cons_of_mem _ hq)) fs (idx + 1) r hr
    · rw [if_neg hg] at hr
      split at hr
      · rename_i heq
        have := hgs g (List.mem_cons_self g rest)
        rw [heq] at this
        simp at this
      · rename_i content heq
        by_cases hcont : content = []
        · rw [if_pos hcont] at hr
          exact ih (fun q hq => hgs q (List.mem_cons_of_mem _ hq)) fs (idx + 1) r hr
        · rw [if_neg hcont] at hr
          simp only [List.mem_cons] at hr
          rcases hr with rfl | hr
          · exact splitWriteOne_no_index_error
          · exact ih (fun q hq => hgs q (List.mem_cons_of_mem _ hq)) _ (idx + 1) r hr

/-- C10: pages delivered by the parser are always within `[1, total_pages]`,
so split's 0-based access `reader.pages[p - 1]` is in bounds for every page
of every group (first conjunct: the modelled access never yields the
`IndexError` `none`), and consequently the by-ranges split never produces
the failure record of the out-of-range error branch (second conjunct). -/
theorem claim_c10_page_access_in_bounds (s : String) (pages : List Nat) :
    (∀ g ∈ parse_page_ranges s pages.length,
        (∀ p ∈ g, 1 ≤ p ∧ p - 1 < pages.length) ∧ (extractPages pages g).isSome = true)
    ∧ (∀ (fs : FS) (sp : FPath) (base ext : String) (cfg : OutputMode)
        (temps : Nat → FPath) (oks : Nat → Bool) (moves : Nat → MoveOutcome) (r : OpResult),
        parse_page_ranges s pages.length ≠ [] →
        r ∈ (split_pdf_document fs ⟨sp, base, ext, some pages⟩ cfg ⟨"range", s⟩
            temps oks moves).2 →
        r.error_message ≠ some splitOuterErrorMsg) := by
  have hb : ∀ g ∈ parse_page_ranges s pages.length, ∀ p ∈ g, 1 ≤ p ∧ p - 1 < pages.length := by
    intro g hg p hp
    have := parse_page_ranges_bounds hg p hp
    omega
  constructor
  · intro g hg
    exact ⟨hb g hg, extractPages_isSome (fun p hp => (hb g hg p hp).2)⟩
  · intro fs sp base ext cfg temps oks moves r hne hr
    have e1 : (("range" : String) = "all_pages_separately") = False := eq_false (by decide)
    have e2 : (("range" : String) = "range") = True := eq_true rfl
    have e3 : (parse_page_ranges s pages.length = [] ∧ s ≠ "") = False :=
      eq_false (fun hco => hne hco.1)
    have e4 : (parse_page_ranges s pages.length = []) = False := eq_false hne
    simp only [split_pdf_document, e1, e2, e3, e4, if_false, if_true] at hr
    exact splitRangesGo_no_index_error (parse_page_ranges s pages.length)
      (fun g hg => extractPages_isSome (fun p hp => (hb g hg p hp).2)) fs 0 r hr

/-- Witness for C10 on the example spec against a 10-page document. -/
theorem claim_c10_witness :
    ((∀ p ∈ [7, 8, 9, 10], 1 ≤ p ∧ p - 1 < (List.range 10).length)
      ∧ (extractPages (List.range 10) [7, 8, 9, 10]).isSome = true)
    ∧ (((split_pdf_document ⟨[["d"]], []⟩ ⟨["d", "a.pdf"], "a", ".pdf", some (List.range 10)⟩
          .source_dir ⟨"range", "1-3,5;7-end"⟩ (fun _ => ["tmp", "t"]) (fun _ => true)
          (fun _ => .moved)).2.headD
            ⟨.failure, none, none⟩).error_message ≠ some splitOuterErrorMsg) :=
  ⟨(claim_c10_page_access_in_bounds "1-3,5;7-end" (List.range 10)).1 [7, 8, 9, 10] (by decide),
   (claim_c10_page_access_in_bounds "1-3,5;7-end" (List.range 10)).2
     ⟨[["d"]], []⟩ ["d", "a.pdf"] "a" ".pdf" .source_dir (fun _ => ["tmp", "t"]) (fun _ => true)
     (fun _ => .moved) _ (by decide) (by decide)⟩

/-- C5: after validating the input PDF, split in ByRanges mode returns a
single "no ranges provided" failure when the range spec is the empty string,
and a single "cannot parse ranges" failure when a non-empty spec parses to
zero groups; in both cases the filesystem is returned untouched (no output
file is produced) and no further processing occurs. -/
theorem claim_c5_range_failures (fs : FS) (sp : FPath) (base ext : String)
    (pages : List Nat) (cfg : OutputMode) (temps : Nat → FPath) (oks : Nat → Bool)
    (moves : Nat → MoveOutcome) (ranges_str : String) :
    (split_pdf_document fs ⟨sp, base, ext, some pages⟩ cfg ⟨"range", ""⟩ temps oks moves
        = (fs, [⟨.failure, none, some "未提供有效的拆分范围。"⟩]))
    ∧ (ranges_str ≠ "" → parse_page_ranges ranges_str pages.length = [] →
        split_pdf_document fs ⟨sp, base, ext, some pages⟩ cfg ⟨"range", ranges_str⟩
            temps oks moves
          = (fs, [⟨.failure, none,
              some ("无法解析页码范围: '" ++ ranges_str ++ "'。请检查格式。")⟩])) := by
  constructor
  · have e1 : (("range" : String) = "all_pages_separately") = False := eq_false (by decide)
    have e2 : (("range" : String) = "range") = True := eq_true rfl
    have e3 : parse_page_ranges "" pages.length = [] := rfl
    simp [split_pdf_document, e1, e2, e3]
  · intro hne hpe
    have e1 : (("range" : String) = "all_pages_separately") = False := eq_false (by decide)
    have e2 : (("range" : String) = "range") = True := eq_true rfl
    have e3 : (parse_page_ranges ranges_str pages.length = [] ∧ ranges_str ≠ "") = True :=
      eq_true ⟨hpe, hne⟩
    simp [split_pdf_document, e1, e2, e3]

/-- Witness for C5: an empty spec and the unparseable spec `"abc"` on a
2-page document. -/
theorem claim_c5_witness :
    (split_pdf_document ⟨[["d"]], []⟩ ⟨["d", "a.pdf"], "a", ".pdf", some [7, 8]⟩
        .source_dir ⟨"range", ""⟩ (fun _ => ["tmp", "t"]) (fun _ => true) (fun _ => .moved)
        = (⟨[["d"]], []⟩, [⟨.failure, none, some "未提供有效的拆分范围。"⟩]))
    ∧ (split_pdf_document ⟨[["d"]], []⟩ ⟨["d", "a.pdf"], "a", ".pdf", some [7, 8]⟩
        .source_dir ⟨"range", "abc"⟩ (fun _ => ["tmp", "t"]) (fun _ => true) (fun _ => .moved)
        = (⟨[["d"]], []⟩, [⟨.failure, none,
            some ("无法解析页码范围: '" ++ "abc" ++ "'。请检查格式。")⟩])) :=
  ⟨(claim_c5_range_failures ⟨[["d"]], []⟩ ["d", "a.pdf"] "a" ".pdf" [7, 8]
      .source_dir (fun _ => ["tmp", "t"]) (fun _ => true) (fun _ => .moved) "abc").1,
   (claim_c5_range_failures ⟨[["d"]], []⟩ ["d", "a.pdf"] "a" ".pdf" [7, 8]
      .source_dir (fun _ => ["tmp", "t"]) (fun _ => true) (fun _ => .moved) "abc").2
     (by decide) (by decide)⟩

/-! ## Output-path resolution: idempotence (C9) -/

theorem mem_insertDir_of_mem {d : List FPath} {q x : FPath} (h : q ∈ d) :
    q ∈ insertDir d x := by
  unfold insertDir
  split
  · exact h
  · exact List.mem_append_left _ h

theorem mem_insertDir_self (d : List FPath) (x : FPath) : x ∈ insertDir d x := by
  unfold insertDir
  split
  · assumption
  · exact List.mem_append_right _ (List.mem_singleton.mpr rfl)

theorem mem_foldl_insertDir_init {l : List FPath} {d : List FPath} {q : FPath}
    (h : q ∈ d) : q ∈ l.foldl insertDir d := by
  induction l generalizing d with
  | nil => exact h
  | cons x xs ih => exact ih (mem_insertDir_of_mem h)

theorem mem_foldl_insertDir {l : List FPath} {d : List FPath} {q : FPath}
    (h : q ∈ l) : q ∈ l.foldl insertDir d := by
  induction l generalizing d with
  | nil => cases h
  | cons x xs ih =>
    rcases List.mem_cons.1 h with rfl | hq
    · rw [List.foldl_cons]
      exact mem_foldl_insertDir_init (mem_insertDir_self d q)
    · rw [List.foldl_cons]
      exact ih hq

theorem foldl_insertDir_all_mem {l : List FPath} {d : List FPath}
    (h : ∀ q ∈ l, q ∈ d) : l.foldl insertDir d = d := by
  induction l with
  | nil => rfl
  | cons x xs ih =>
    have hx : insertDir d x = d := by
      unfold insertDir
      rw [if_pos (h x (List.mem_cons_self x xs))]
    rw [List.foldl_cons, hx]
    exact ih (fun q hq => h q (List.mem_cons_of_mem _ hq))

theorem mkdirAll_idem {fs fs1 : FS} {p : FPath} (h : fs.mkdirAll p = .ok fs1) :
    fs1.mkdirAll p = .ok fs1 := by
  unfold FS.mkdirAll at h ⊢
  split at h
  · exact absurd h (by simp)
  · rename_i hno
    have h1 : fs1 = { fs with dirs := (ancestorsOf p).foldl insertDir fs.dirs } :=
      (Except.ok.inj h).symm
    subst h1
    split
    · rename_i hyes; exact absurd hyes hno
    · rw [foldl_insertDir_all_mem (fun q hq => mem_foldl_insertDir hq)]

/-- C9: output-path resolution is idempotent: resolving with `SourceDir`
leaves the filesystem unchanged and a second identical call returns the same
path, and after a successful `NewSubdirInSource` resolution a second call
with the same subfolder name succeeds (the directory already existing is not
an error) with the same path and the same filesystem. -/
theorem claim_c9_resolution_idempotent (fs : FS) (src : FPath) (fn : String)
    (name : Option String) :
    (∀ p fs1, create_output_path fs src .source_dir fn = .ok (p, fs1) →
        fs1 = fs ∧ create_output_path fs1 src .source_dir fn = .ok (p, fs1))
    ∧ (∀ p fs1, create_output_path fs src (.new_subdir_in_source name) fn = .ok (p, fs1) →
        create_output_path fs1 src (.new_subdir_in_source name) fn = .ok (p, fs1)) := by
  constructor
  · intro p fs1 h
    simp only [create_output_path] at h ⊢
    injection h with hpair
    injection hpair with h1 h2
    subst h1
    subst h2
    exact ⟨rfl, rfl⟩
  · intro p fs1 h
    simp only [create_output_path] at h ⊢
    split at h
    · exact absurd h (by simp)
    · rename_i fs2 hm
      injection h with hpair
      injection hpair with h1 h2
      subst h1
      subst h2
      rw [mkdirAll_idem hm]

/-- Witness for C9: both placement modes resolved twice on a small concrete
filesystem. -/
theorem claim_c9_witness :
    (FS.mk [["home"]] [] = FS.mk [["home"]] []
      ∧ create_output_path (FS.mk [["home"]] []) ["home", "a.pdf"] .source_dir "out.pdf"
          = .ok (["home", "out.pdf"], FS.mk [["home"]] []))
    ∧ create_output_path (FS.mk [["home"], ["home", "sub"]] []) ["home", "a.pdf"]
        (.new_subdir_in_source (some "sub")) "out.pdf"
        = .ok (["home", "sub", "out.pdf"], FS.mk [["home"], ["home", "sub"]] []) :=
  ⟨(claim_c9_resolution_idempotent (FS.mk [["home"]] []) ["home", "a.pdf"] "out.pdf"
      (some "sub")).1 ["home", "out.pdf"] (FS.mk [["home"]] []) rfl,
   (claim_c9_resolution_idempotent (FS.mk [["home"]] []) ["home", "a.pdf"] "out.pdf"
      (some "sub")).2 ["home", "sub", "out.pdf"] (FS.mk [["home"], ["home", "sub"]] []) rfl⟩

/-! ## Temp-file write protocol (C4) -/

theorem filter_ne_of_isFile_false {fs : FS} {p : FPath} (h : fs.isFile p = false) :
    fs.files.filter (fun e => decide (e.1 ≠ p)) = fs.files := by
  rw [List.filter_eq_self]
  intro e he
  simp only [FS.isFile] at h
  have h2 := List.any_eq_false.1 h e he
  simp at h2 ⊢
  exact h2

theorem any_eq_of_filter_ne (l : List (FPath × List Nat)) (p : FPath) :
    (l.filter (fun e => decide (e.1 ≠ p))).any (fun e => decide (e.1 = p)) = false := by
  rw [List.any_eq_false]
  intro e he
  have h1 := List.of_mem_filter he
  simp at h1 ⊢
  exact h1

theorem any_eq_of_filter_filter_ne (l : List (FPath × List Nat)) (p q : FPath) :
    ((l.filter (fun e => decide (e.1 ≠ p))).filter (fun e => decide (e.1 ≠ q))).any
      (fun e => decide (e.1 = p)) = false := by
  rw [List.any_eq_false]
  intro e he
  have h1 := List.of_mem_filter (List.mem_of_mem_filter he)
  simp at h1 ⊢
  exact h1

theorem mkdirAll_files_eq {fs fs2 : FS} {p : FPath} (h : fs.mkdirAll p = .ok fs2) :
    fs2.files = fs.files := by
  unfold FS.mkdirAll at h
  split at h
  · exact absurd h (by simp)
  · rw [← Except.ok.inj h]

theorem create_output_path_files_eq {fs : FS} {src : FPath} {cfg : OutputMode}
    {fn : String} {outp : FPath} {fs1 : FS}
    (h : create_output_path fs src cfg fn = .ok (outp, fs1)) : fs1.files = fs.files := by
  rcases cfg with - | name | path? | -
  · simp only [create_output_path] at h
    injection h with hpair
    injection hpair with h1 h2
    subst h2
    rfl
  · simp only [create_output_path] at h
    split at h
    · exact absurd h (by simp)
    · rename_i fs2 hm
      injection h with hpair
      injection hpair with h1 h2
      subst h2
      exact mkdirAll_files_eq hm
  · rcases path? with - | p
    · simp [create_output_path] at h
    · simp only [create_output_path] at h
      split at h
      · injection h with hpair
        injection hpair with h1 h2
        subst h2
        rfl
      · exact absurd h (by simp)
  · simp [create_output_path] at h

theorem write_fail_rollback {fs : FS} {temp out : FPath} {pages : List Nat}
    {mv : MoveOutcome} (hfresh : fs.isFile temp = false) :
    write_pdf_with_tempfile fs temp out pages false mv = (fs, false) := by
  cases fs with
  | mk dirs files =>
    simp only [write_pdf_with_tempfile, FS.setFile, FS.removeFile, Bool.false_eq_true,
      if_false, List.filter_cons]
    have hx : (decide (temp ≠ temp)) = false := by simp
    rw [hx]
    have hff : files.filter (fun e => decide (e.1 ≠ temp)) = files :=
      @filter_ne_of_isFile_false (FS.mk dirs files) temp hfresh
    simp [hff]
    intro a b hab
    simp only [FS.isFile] at hfresh
    have hone := List.any_eq_false.1 hfresh (a, b) hab
    simpa using hone

theorem fileAt_setFile_same (fs : FS) (p : FPath) (c : List Nat) :
    (fs.setFile p c).fileAt p = some c := by
  simp [FS.setFile, FS.fileAt, List.find?_cons]

theorem write_ok_moved_eval (fs : FS) (temp out : FPath) (pages : List Nat) :
    write_pdf_with_tempfile fs temp out pages true .moved
      = (((((fs.setFile temp []).setFile temp pages).removeFile temp).setFile out pages),
          true) := by
  simp only [write_pdf_with_tempfile, shutil_move, fileAt_setFile_same, if_true]

theorem write_ok_result {fs : FS} {temp out : FPath} {pages : List Nat} (hne : temp ≠ out) :
    (write_pdf_with_tempfile fs temp out pages true .moved).1.fileAt out = some pages
    ∧ (write_pdf_with_tempfile fs temp out pages true .moved).1.isFile temp = false
    ∧ (write_pdf_with_tempfile fs temp out pages true .moved).2 = true := by
  rw [write_ok_moved_eval]
  refine ⟨?_, ?_, rfl⟩
  · simp [FS.setFile, FS.removeFile, FS.fileAt, List.find?_cons]
  · simp only [FS.setFile, FS.removeFile, FS.isFile, List.any_cons]
    have hx : (decide (out = temp)) = false := by simp [Ne.symm hne]
    rw [hx]
    simp only [Bool.false_or]
    exact any_eq_of_filter_filter_ne _ temp out

/-- C4 (code bug): `NamedTemporaryFile` is called without `dir=`
(`main.py` lines 181 and 339), so the temporary file is created in the
system temporary directory, not the destination filesystem, and
`shutil.move` (lines 186 and 344) degrades to a non-atomic copy-then-delete
whenever the destination is on a different mount.  Evaluating the code at
the failing input — a valid 2-page merge whose cross-filesystem move raises
after one page has reached the destination — shows the operation reports a
failure and the cleanup unlinks only the temporary file, while a partially
written document (one page of two) is left at the destination, contrary to
the claimed guarantee; the same protocol, and so the same bug, serves each
split group (fifth conjunct).  The last conjunct records what the code does
guarantee: a failure before the move starts leaves the filesystem exactly
as it was. -/
theorem claim_c4_partial_destination_bug :
    ((merge_pdf_documents (FS.mk [["d"]] []) [⟨["d", "a.pdf"], some [1, 2]⟩]
        .source_dir "m.pdf" ["tmp", "t1"] true (.copyFailed 1)).2.status = .failure)
    ∧ ((merge_pdf_documents (FS.mk [["d"]] []) [⟨["d", "a.pdf"], some [1, 2]⟩]
        .source_dir "m.pdf" ["tmp", "t1"] true (.copyFailed 1)).1.fileAt ["d", "m.pdf"]
          = some [1])
    ∧ some [1] ≠ some ([1, 2] : List Nat)
    ∧ ((merge_pdf_documents (FS.mk [["d"]] []) [⟨["d", "a.pdf"], some [1, 2]⟩]
        .source_dir "m.pdf" ["tmp", "t1"] true (.copyFailed 1)).1.isFile ["tmp", "t1"]
          = false)
    ∧ ((splitWriteOne (FS.mk [["d"]] []) ⟨["d", "a.pdf"], "a", ".pdf", some [7, 8]⟩
        .source_dir "a_pages_1-2.pdf" [7, 8] ["tmp", "t2"] true (.copyFailed 1)).1.fileAt
          ["d", "a_pages_1-2.pdf"] = some [7])
    ∧ (write_pdf_with_tempfile (FS.mk [["d"]] []) ["tmp", "t1"] ["d", "m.pdf"] [1, 2]
        false .moved = (FS.mk [["d"]] [], false)) := by decide

/-! ## Merge output filename (C6) -/

theorem lowerChars_append (a b : List Char) :
    lowerChars (a ++ b) = lowerChars a ++ lowerChars b :=
  List.map_append _ a b

theorem normalize_suffix_core (f1 : String) :
    List.isSuffixOf ".pdf".data
      (lowerChars (if List.isSuffixOf ".pdf".data (lowerChars f1.data) then f1
                   else f1 ++ ".pdf").data) = true := by
  by_cases hs : List.isSuffixOf ".pdf".data (lowerChars f1.data) = true
  · rw [if_pos hs]; exact hs
  · rw [if_neg hs, String.data_append, lowerChars_append]
    have h4 : lowerChars ".pdf".data = ".pdf".data := by decide
    rw [h4]
    exact List.isSuffixOf_iff_suffix.mpr (List.suffix_append _ _)

theorem create_output_path_last {fs : FS} {src : FPath} {cfg : OutputMode} {fn : String}
    {outp : FPath} {fs1 : FS} (h : create_output_path fs src cfg fn = .ok (outp, fs1)) :
    outp.getLastD "" = fn := by
  rcases cfg with - | name | path? | -
  · simp only [create_output_path] at h
    injection h with hpair
    injection hpair with h1 h2
    rw [← h1, List.getLastD_concat]
  · simp only [create_output_path] at h
    split at h
    · exact absurd h (by simp)
    · injection h with hpair
      injection hpair with h1 h2
      rw [← h1, List.getLastD_concat]
  · rcases path? with - | p
    · simp [create_output_path] at h
    · simp only [create_output_path] at h
      split at h
      · injection h with hpair
        injection hpair with h1 h2
        rw [← h1, List.getLastD_concat]
      · exact absurd h (by simp)
  · simp [create_output_path] at h

/-- C6: the merge flow's filename normalization appends `".pdf"` whenever
the entered name does not already end in it case-insensitively, so the
normalized name — and hence the filename component of the resolved output
path of a successful merge — always ends in `.pdf` (case-insensitively). -/
theorem claim_c6_merge_pdf_suffix (s : String) :
    (List.isSuffixOf ".pdf".data (lowerChars (normalize_merge_filename s).data) = true)
    ∧ (∀ (fs : FS) (inputs : List PdfInput) (cfg : OutputMode) (temp : FPath)
        (mv : MoveOutcome),
        (merge_pdf_documents fs inputs cfg (normalize_merge_filename s) temp true mv).2.status
            = .success →
        ∃ outp fs1,
          create_output_path fs (inputs.headD ⟨[], none⟩).path cfg (normalize_merge_filename s)
              = .ok (outp, fs1)
          ∧ (merge_pdf_documents fs inputs cfg (normalize_merge_filename s)
              temp true mv).2.file_path
              = some (pathStr outp)
          ∧ outp.getLastD "" = normalize_merge_filename s) := by
  constructor
  · exact normalize_suffix_core _
  · intro fs inputs cfg temp mv hsucc
    by_cases h1 : inputs.filter (fun f => f.pdf.isNone) = []
    · by_cases h2 : inputs = []
      · exfalso
        have e1 : (inputs.filter (fun f => f.pdf.isNone) ≠ []) = False :=
          eq_false (fun hcon => hcon h1)
        have e2 : (inputs = []) = True := eq_true h2
        simp only [merge_pdf_documents, e1, e2, if_false, if_true] at hsucc
        exact absurd hsucc (by decide)
      · cases hc : create_output_path fs (inputs.headD ⟨[], none⟩).path cfg
            (normalize_merge_filename s) with
        | error e =>
          exfalso
          have e1 : (inputs.filter (fun f => f.pdf.isNone) ≠ []) = False :=
            eq_false (fun hcon => hcon h1)
          have e2 : (inputs = []) = False := eq_false h2
          simp only [merge_pdf_documents, e1, e2, if_false, hc] at hsucc
          exact absurd hsucc (by decide)
        | ok pr =>
          obtain ⟨outp, fs1⟩ := pr
          have e1 : (inputs.filter (fun f => f.pdf.isNone) ≠ []) = False :=
            eq_false (fun hcon => hcon h1)
          have e2 : (inputs = []) = False := eq_false h2
          cases hw : write_pdf_with_tempfile fs1 temp outp
              ((inputs.map (fun f => f.pdf.getD [])).flatten) true mv with
          | mk fs2 b =>
            cases b with
            | true =>
              refine ⟨outp, fs1, rfl, ?_, create_output_path_last hc⟩
              simp only [merge_pdf_documents, e1, e2, if_false, hc, hw]
            | false =>
              exfalso
              simp only [merge_pdf_documents, e1, e2, if_false, hc, hw] at hsucc
              exact absurd hsucc (by decide)
    · exfalso
      have e1 : (inputs.filter (fun f => f.pdf.isNone) ≠ []) = True := eq_true h1
      simp only [merge_pdf_documents, e1, if_true] at hsucc
      exact absurd hsucc (by decide)

/-- Witness for C6: a filename without the suffix, run through a concrete
successful merge. -/
theorem claim_c6_witness :
    (List.isSuffixOf ".pdf".data (lowerChars (normalize_merge_filename "合并结果").data) = true)
    ∧ ∃ outp fs1,
        create_output_path (FS.mk [["d"]] []) ["d", "a.pdf"] .source_dir
            (normalize_merge_filename "合并结果") = .ok (outp, fs1)
          ∧ (merge_pdf_documents (FS.mk [["d"]] []) [⟨["d", "a.pdf"], some [1, 2]⟩]
              .source_dir (normalize_merge_filename "合并结果") ["tmp", "t"] true
              .moved).2.file_path
              = some (pathStr outp)
          ∧ outp.getLastD "" = normalize_merge_filename "合并结果" :=
  ⟨(claim_c6_merge_pdf_suffix "合并结果").1,
   (claim_c6_merge_pdf_suffix "合并结果").2 (FS.mk [["d"]] [])
     [⟨["d", "a.pdf"], some [1, 2]⟩] .source_dir ["tmp", "t"] .moved (by decide)⟩

/-! ## Rasterize filenames (C7) -/

theorem dedupSort_range' (s n : Nat) : dedupSort (List.range' s n) = List.range' s n :=
  dedupSort_eq_self (List.pairwise_lt_range' s n)

theorem convertPagesGo_no_stop (total : Nat) (mkImg : Nat → String) :
    ∀ (sel : List Nat) (k : Nat), (∀ p ∈ sel, 1 ≤ p ∧ p ≤ total) →
      convertPagesGo (fun _ => false) total true mkImg sel k
        = (sel.map mkImg, k + sel.length, false) := by
  intro sel
  induction sel with
  | nil => intro k h; simp [convertPagesGo]
  | cons p rest ih =>
    intro k h
    have hp := h p (List.mem_cons_self p rest)
    simp only [convertPagesGo]
    rw [if_neg (by simp)]
    rw [if_neg (by omega : ¬(p < 1 ∨ p > total))]
    rw [ih (k + 1) (fun q hq => h q (List.mem_cons_of_mem _ hq))]
    have hk : k + 1 + rest.length = k + (p :: rest).length := by
      simp [List.length_cons]
      omega
    simp only [if_true, List.singleton_append, List.map_cons, hk]

theorem splitWriteOne_source_dir_ok (fs : FS) (doc : SplitSrc) (fn : String)
    (content : List Nat) (t : FPath) :
    (splitWriteOne fs doc .source_dir fn content t true .moved).2
      = ⟨.success, some (pathStr (doc.source_path.dropLast ++ [fn])), none⟩ := by
  simp [splitWriteOne, create_output_path, write_ok_moved_eval]

theorem splitAllPagesGo_names (doc : SplitSrc) (temps : Nat → FPath) :
    ∀ (pages : List Nat) (fs : FS) (i : Nat),
      (splitAllPagesGo doc .source_dir temps (fun _ => true) (fun _ => .moved) fs pages i).2
        = (List.range pages.length).map (fun j =>
            ⟨.success, some (pathStr (doc.source_path.dropLast ++
              [doc.base_name ++ "_page_" ++ natDigitsStr (i + j + 1) ++ doc.ext])), none⟩) := by
  intro pages
  induction pages with
  | nil => intro fs i; simp [splitAllPagesGo]
  | cons c rest ih =>
    intro fs i
    simp only [splitAllPagesGo]
    rw [splitWriteOne_source_dir_ok]
    rw [ih _ (i + 1)]
    simp only [List.length_cons]
    rw [List.range_succ_eq_map, List.map_cons, List.map_map]
    congr 1
    apply List.map_congr_left
    intro j hj
    have harith : i + 1 + j + 1 = i + (j + 1) + 1 := by omega
    simp [harith]

/-- C7: rasterizing a document with `total` pages (no range spec, no stop
request) produces exactly one image per page, named
`<base>_page_<N>.<fmt>` with `N` zero-padded to the width of the decimal
string of the total page count, whereas split's per-page outputs are named
with the unpadded 1-based page number. -/
theorem claim_c7_filename_padding (path base src_dir fmt : String) (res total : Nat)
    (htotal : 1 ≤ total) (hfmt : convSaves fmt = true)
    (doc : SplitSrc) (temps : Nat → FPath) (fs : FS) (pages : List Nat) :
    ((convert_pdf_to_images ⟨res, fmt, "source_dir", "", ""⟩ (fun _ => false)
        [⟨path, base, src_dir, some total⟩]).2
      = (List.range' 1 total).map (fun p =>
          src_dir ++ "/" ++ (base ++ "_page_" ++
            String.mk (zfill (natDigits total).length (natDigits p)) ++ "." ++ fmt)))
    ∧ ((splitAllPagesGo doc .source_dir temps (fun _ => true) (fun _ => .moved)
          fs pages 0).2
      = (List.range pages.length).map (fun j =>
          ⟨.success, some (pathStr (doc.source_path.dropLast ++
            [doc.base_name ++ "_page_" ++ natDigitsStr (j + 1) ++ doc.ext])), none⟩)) := by
  constructor
  · have hbounds : ∀ p ∈ List.range' 1 total, 1 ≤ p ∧ p ≤ total := by
      intro p hp
      rw [List.mem_range'_1] at hp
      omega
    have hsel : convSelection "" total = List.range' 1 total := by
      unfold convSelection
      rw [if_neg (by simp)]
      exact dedupSort_range' 1 total
    have hne : (List.range' 1 total = []) = False := by
      apply eq_false
      intro hcon
      have hlen := congrArg List.length hcon
      simp at hlen
      omega
    have e5 : (("source_dir" : String) = "source_dir") = True := eq_true rfl
    unfold convert_pdf_to_images
    simp only [convertFilesGo, convOutputDir, hsel, hne, hfmt, e5, if_false, if_true,
      Bool.false_eq_true]
    rw [convertPagesGo_no_stop total
      (fun p => src_dir ++ "/" ++ convImageName base total fmt p) (List.range' 1 total) 1
      hbounds]
    simp [convImageName]
  · have h0 := splitAllPagesGo_names doc temps pages fs 0
    rw [h0]
    apply List.map_congr_left
    intro j hj
    simp

/-- Witness for C7: a 12-page rasterize uses two-digit zero-padded numbers
`page_01 .. page_12`, while a 2-page split names its outputs `page_1` and
`page_2`. -/
theorem claim_c7_witness :
    ((convert_pdf_to_images ⟨150, "png", "source_dir", "", ""⟩ (fun _ => false)
        [⟨"doc.pdf", "doc", "out", some 12⟩]).2
      = (List.range' 1 12).map (fun p =>
          "out" ++ "/" ++ ("doc" ++ "_page_" ++
            String.mk (zfill (natDigits 12).length (natDigits p)) ++ "." ++ "png")))
    ∧ ((List.range' 1 12).map (fun p =>
          "out" ++ "/" ++ ("doc" ++ "_page_" ++
            String.mk (zfill (natDigits 12).length (natDigits p)) ++ "." ++ "png"))
        = ["out/doc_page_01.png", "out/doc_page_02.png", "out/doc_page_03.png",
           "out/doc_page_04.png", "out/doc_page_05.png", "out/doc_page_06.png",
           "out/doc_page_07.png", "out/doc_page_08.png", "out/doc_page_09.png",
           "out/doc_page_10.png", "out/doc_page_11.png", "out/doc_page_12.png"])
    ∧ ((splitAllPagesGo ⟨["d", "a.pdf"], "a", ".pdf", some [5, 6]⟩ .source_dir
          (fun _ => ["tmp", "t"]) (fun _ => true) (fun _ => .moved)
          ⟨[["d"]], []⟩ [5, 6] 0).2.map
            OpResult.file_path
        = [some "d/a_page_1.pdf", some "d/a_page_2.pdf"]) :=
  ⟨(claim_c7_filename_padding "doc.pdf" "doc" "out" "png" 150 12 (by decide) (by decide)
      ⟨["d", "a.pdf"], "a", ".pdf", some [5, 6]⟩ (fun _ => ["tmp", "t"]) ⟨[["d"]], []⟩
      [5, 6]).1,
   by decide,
   by decide⟩

/-! ## Stop/cancel protocol for convert (C3) -/

theorem convertPagesGo_cancelled_iff (stop : Nat → Bool) (total : Nat) (saves : Bool)
    (mkImg : Nat → String) :
    ∀ (sel : List Nat) (k : Nat),
      (convertPagesGo stop total saves mkImg sel k).2.2 = true
        ↔ ∃ j, j < sel.length ∧ stop (k + j) = true := by
  intro sel
  induction sel with
  | nil =>
    intro k
    simp [convertPagesGo]
  | cons p rest ih =>
    intro k
    by_cases hk : stop k = true
    · have hval : convertPagesGo stop total saves mkImg (p :: rest) k = ([], k + 1, true) := by
        simp only [convertPagesGo]
        rw [if_pos hk]
      rw [hval]
      simp only [List.length_cons]
      constructor
      · intro _
        exact ⟨0, by omega, by simpa using hk⟩
      · intro _
        trivial
    · have hval : (convertPagesGo stop total saves mkImg (p :: rest) k).2.2
          = (convertPagesGo stop total saves mkImg rest (k + 1)).2.2 := by
        simp only [convertPagesGo]
        rw [if_neg hk]
        split
        · rfl
        · rfl
      rw [hval, ih (k + 1)]
      constructor
      · rintro ⟨j, hj, hsj⟩
        refine ⟨j + 1, by simpa using hj, ?_⟩
        have harith : k + (j + 1) = k + 1 + j := by omega
        rw [harith]
        exact hsj
      · rintro ⟨j, hj, hsj⟩
        cases j with
        | zero => exact absurd (by simpa using hsj) hk
        | succ j' =>
          refine ⟨j', by simpa using hj, ?_⟩
          have harith : k + (j' + 1) = k + 1 + j' := by omega
          rw [harith] at hsj
          exact hsj

theorem convResultStepAux (f : ConvInput) (rest : List ConvInput) (r : ConvResult)
    (rs : List ConvResult)
    (hstat : r.status ≠ .cancelled) (hpath : r.file_path = f.path)
    (h2 : rs.length ≤ rest.length)
    (h3 : ∀ (i : Nat) (x : ConvResult), rs[i]? = some x →
        ∃ g : ConvInput, rest[i]? = some g ∧ x.file_path = g.path)
    (h4 : ∀ (i : Nat) (x : ConvResult), rs[i]? = some x → x.status = .cancelled →
        i + 1 = rs.length)
    (h5 : rs.length < rest.length →
        ∃ x, rs[rs.length - 1]? = some x ∧ x.status = .cancelled) :
    ((r :: rs).length ≤ (f :: rest).length)
    ∧ (∀ (i : Nat) (x : ConvResult), (r :: rs)[i]? = some x →
        ∃ g : ConvInput, (f :: rest)[i]? = some g ∧ x.file_path = g.path)
    ∧ (∀ (i : Nat) (x : ConvResult), (r :: rs)[i]? = some x → x.status = .cancelled →
        i + 1 = (r :: rs).length)
    ∧ ((r :: rs).length < (f :: rest).length →
        ∃ x, (r :: rs)[(r :: rs).length - 1]? = some x ∧ x.status = .cancelled) := by
  refine ⟨by simpa using Nat.succ_le_succ h2, ?_, ?_, ?_⟩
  · intro i x hx
    cases i with
    | zero =>
      rw [List.getElem?_cons_zero] at hx
      exact ⟨f, List.getElem?_cons_zero, by rw [← Option.some.inj hx]; exact hpath⟩
    | succ i' =>
      rw [List.getElem?_cons_succ] at hx
      rcases h3 i' x hx with ⟨g, hg, hxg⟩
      exact ⟨g, by rw [List.getElem?_cons_succ]; exact hg, hxg⟩
  · intro i x hx hcanc
    cases i with
    | zero =>
      rw [List.getElem?_cons_zero] at hx
      rw [← Option.some.inj hx] at hcanc
      exact absurd hcanc hstat
    | succ i' =>
      rw [List.getElem?_cons_succ] at hx
      have h6 := h4 i' x hx hcanc
      simp only [List.length_cons]
      omega
  · intro hlt
    have hlt' : rs.length < rest.length := by
      simp only [List.length_cons] at hlt
      omega
    rcases h5 hlt' with ⟨x, hx, hxc⟩
    have hrsne : rs ≠ [] := by
      intro hnil
      rw [hnil] at hx
      simp at hx
    refine ⟨x, ?_, hxc⟩
    have hpos : 1 ≤ rs.length := List.length_pos.mpr hrsne
    have hlen : (r :: rs).length - 1 = (rs.length - 1) + 1 := by
      simp only [List.length_cons]
      omega
    rw [hlen, List.getElem?_cons_succ]
    exact hx

theorem convResultCancelAux (f : ConvInput) (rest : List ConvInput) (r : ConvResult)
    (hstat : r.status = .cancelled) (hpath : r.file_path = f.path) :
    ([r].length ≤ (f :: rest).length)
    ∧ (∀ (i : Nat) (x : ConvResult), [r][i]? = some x →
        ∃ g : ConvInput, (f :: rest)[i]? = some g ∧ x.file_path = g.path)
    ∧ (∀ (i : Nat) (x : ConvResult), [r][i]? = some x → x.status = .cancelled →
        i + 1 = [r].length)
    ∧ ([r].length < (f :: rest).length →
        ∃ x, [r][([r].length - 1 : Nat)]? = some x ∧ x.status = .cancelled) := by
  refine ⟨by simp, ?_, ?_, ?_⟩
  · intro i x hx
    cases i with
    | zero =>
      rw [List.getElem?_cons_zero] at hx
      exact ⟨f, List.getElem?_cons_zero, by rw [← Option.some.inj hx]; exact hpath⟩
    | succ i' => simp at hx
  · intro i x hx hc
    cases i with
    | zero => rfl
    | succ i' => simp at hx
  · intro hlt
    exact ⟨r, by simp, hstat⟩

theorem convertFilesGo_invariant (P : ConvParams) (stop : Nat → Bool) :
    ∀ (files : List ConvInput) (k : Nat),
      ((convertFilesGo P stop files k).1.length ≤ files.length)
      ∧ (∀ (i : Nat) (x : ConvResult), (convertFilesGo P stop files k).1[i]? = some x →
          ∃ g : ConvInput, files[i]? = some g ∧ x.file_path = g.path)
      ∧ (∀ (i : Nat) (x : ConvResult), (convertFilesGo P stop files k).1[i]? = some x →
          x.status = .cancelled → i + 1 = (convertFilesGo P stop files k).1.length)
      ∧ ((convertFilesGo P stop files k).1.length < files.length →
          ∃ x, (convertFilesGo P stop files k).1[((convertFilesGo P stop files k).1.length
              - 1 : Nat)]? = some x ∧ x.status = .cancelled) := by
  intro files
  induction files with
  | nil =>
    intro k
    simp [convertFilesGo]
  | cons f rest ih =>
    intro k
    by_cases hk : stop k = true
    · have hval : convertFilesGo P stop (f :: rest) k
          = ([⟨.cancelled, f.path, none, none, some "用户取消操作"⟩], []) := by
        simp only [convertFilesGo]
        rw [if_pos hk]
      rw [hval]
      exact convResultCancelAux f rest _ rfl rfl
    · cases hpdf : f.pdf with
      | none =>
        have hval : (convertFilesGo P stop (f :: rest) k).1
            = ⟨.failure, f.path, none, none, some "打开PDF失败"⟩
              :: (convertFilesGo P stop rest (k + 1)).1 := by
          simp only [convertFilesGo, hpdf]
          rw [if_neg hk]
        rw [hval]
        rcases ih (k + 1) with ⟨ih2, ih3, ih4, ih5⟩
        exact convResultStepAux f rest _ _ (by simp) rfl ih2 ih3 ih4 ih5
      | some total =>
        by_cases hsel : convSelection P.page_range_str total = []
        · have hval : (convertFilesGo P stop (f :: rest) k).1
              = ⟨.failure, f.path, none, none, some "没有有效的页面可供转换"⟩
                :: (convertFilesGo P stop rest (k + 1)).1 := by
            simp only [convertFilesGo, hpdf]
            rw [if_neg hk, if_pos hsel]
          rw [hval]
          rcases ih (k + 1) with ⟨ih2, ih3, ih4, ih5⟩
          exact convResultStepAux f rest _ _ (by simp) rfl ih2 ih3 ih4 ih5
        · cases hdir : convOutputDir P.save_option f.source_dir P.output_dir f.base_name with
          | none =>
            have hval : (convertFilesGo P stop (f :: rest) k).1
                = ⟨.failure, f.path, none, none, some "未定义输出目录"⟩
                  :: (convertFilesGo P stop rest (k + 1)).1 := by
              simp only [convertFilesGo, hpdf, hdir]
              rw [if_neg hk, if_neg hsel]
            rw [hval]
            rcases ih (k + 1) with ⟨ih2, ih3, ih4, ih5⟩
            exact convResultStepAux f rest _ _ (by simp) rfl ih2 ih3 ih4 ih5
          | some odir =>
            by_cases hcanc : (convertPagesGo stop total (convSaves P.image_format)
                (fun p => odir ++ "/" ++ convImageName f.base_name total P.image_format p)
                (convSelection P.page_range_str total) (k + 1)).2.2 = true
            · have hval : (convertFilesGo P stop (f :: rest) k).1
                  = [⟨.cancelled, f.path, none, none, some "用户取消操作"⟩] := by
                simp only [convertFilesGo, hpdf, hdir]
                rw [if_neg hk, if_neg hsel, if_pos hcanc]
              rw [hval]
              exact convResultCancelAux f rest _ rfl rfl
            · have hval : (convertFilesGo P stop (f :: rest) k).1
                  = ⟨.success, f.path, some odir,
                      some (convSelection P.page_range_str total).length, none⟩
                    :: (convertFilesGo P stop rest
                        ((convertPagesGo stop total (convSaves P.image_format)
                          (fun p => odir ++ "/" ++
                            convImageName f.base_name total P.image_format p)
                          (convSelection P.page_range_str total) (k + 1)).2.1)).1 := by
                simp only [convertFilesGo, hpdf, hdir]
                rw [if_neg hk, if_neg hsel, if_neg hcanc]
              rw [hval]
              rcases ih ((convertPagesGo stop total (convSaves P.image_format)
                  (fun p => odir ++ "/" ++ convImageName f.base_name total P.image_format p)
                  (convSelection P.page_range_str total) (k + 1)).2.1) with ⟨ih2, ih3, ih4, ih5⟩
              exact convResultStepAux f rest _ _ (by simp) rfl ih2 ih3 ih4 ih5

/-- C3: the worker polls the stop flag once before every page, so the page
loop reports cancellation exactly when the flag is observed at one of its
page-boundary checks (first conjunct); and for any run of the file loop the
result list covers a prefix of the input files in order (each result's
`file_path` is the corresponding input's path), a `Cancelled` record can
only be the last result, and whenever the run ends before exhausting the
inputs — the stop case — the last result is the in-flight file's `Cancelled`
record and no later file contributes an entry. -/
theorem claim_c3_stop_cancels (P : ConvParams) (stop : Nat → Bool) (total : Nat)
    (saves : Bool) (mkImg : Nat → String) (sel : List Nat) (k0 : Nat)
    (files : List ConvInput) (k : Nat) :
    ((convertPagesGo stop total saves mkImg sel k0).2.2 = true
        ↔ ∃ j, j < sel.length ∧ stop (k0 + j) = true)
    ∧ ((convertFilesGo P stop files k).1.length ≤ files.length)
    ∧ (∀ (i : Nat) (x : ConvResult), (convertFilesGo P stop files k).1[i]? = some x →
        ∃ g : ConvInput, files[i]? = some g ∧ x.file_path = g.path)
    ∧ (∀ (i : Nat) (x : ConvResult), (convertFilesGo P stop files k).1[i]? = some x →
        x.status = .cancelled → i + 1 = (convertFilesGo P stop files k).1.length)
    ∧ ((convertFilesGo P stop files k).1.length < files.length →
        ∃ x, (convertFilesGo P stop files k).1[((convertFilesGo P stop files k).1.length
            - 1 : Nat)]? = some x ∧ x.status = .cancelled) :=
  ⟨convertPagesGo_cancelled_iff stop total saves mkImg sel k0,
   (convertFilesGo_invariant P stop files k).1,
   (convertFilesGo_invariant P stop files k).2.1,
   (convertFilesGo_invariant P stop files k).2.2.1,
   (convertFilesGo_invariant P stop files k).2.2.2⟩

/-- Witness for C3: two 5-page files, stop signaled from the 5th flag read
onwards — i.e. after page 3 of file 1 has been rendered; the run yields a
single `Cancelled` record for file 1 and no entry for file 2. -/
theorem claim_c3_witness :
    ((convertPagesGo (fun t => decide (4 ≤ t)) 5 true (fun _ => "img")
        [1, 2, 3, 4, 5] 1).2.2 = true)
    ∧ (∃ x, (convertFilesGo ⟨150, "png", "source_dir", "", ""⟩ (fun t => decide (4 ≤ t))
        [⟨"/a/f1.pdf", "f1", "/a", some 5⟩, ⟨"/a/f2.pdf", "f2", "/a", some 5⟩] 0).1[
          (((convertFilesGo ⟨150, "png", "source_dir", "", ""⟩ (fun t => decide (4 ≤ t))
            [⟨"/a/f1.pdf", "f1", "/a", some 5⟩, ⟨"/a/f2.pdf", "f2", "/a", some 5⟩] 0).1.length
              - 1 : Nat))]? = some x ∧ x.status = .cancelled)
    ∧ (∃ g, ([⟨"/a/f1.pdf", "f1", "/a", some 5⟩,
          ⟨"/a/f2.pdf", "f2", "/a", some 5⟩] : List ConvInput)[0]? = some g ∧
        (⟨.cancelled, "/a/f1.pdf", none, none, some "用户取消操作"⟩ : ConvResult).file_path
          = g.path) :=
  ⟨(claim_c3_stop_cancels ⟨150, "png", "source_dir", "", ""⟩ (fun t => decide (4 ≤ t)) 5 true
      (fun _ => "img") [1, 2, 3, 4, 5] 1
      [⟨"/a/f1.pdf", "f1", "/a", some 5⟩, ⟨"/a/f2.pdf", "f2", "/a", some 5⟩] 0).1.mpr
      ⟨3, by decide, by decide⟩,
   (claim_c3_stop_cancels ⟨150, "png", "source_dir", "", ""⟩ (fun t => decide (4 ≤ t)) 5 true
      (fun _ => "img") [1, 2, 3, 4, 5] 1
      [⟨"/a/f1.pdf", "f1", "/a", some 5⟩, ⟨"/a/f2.pdf", "f2", "/a", some 5⟩] 0).2.2.2.2
      (by decide),
   (claim_c3_stop_cancels ⟨150, "png", "source_dir", "", ""⟩ (fun t => decide (4 ≤ t)) 5 true
      (fun _ => "img") [1, 2, 3, 4, 5] 1
      [⟨"/a/f1.pdf", "f1", "/a", some 5⟩, ⟨"/a/f2.pdf", "f2", "/a", some 5⟩] 0).2.2.1 0
      ⟨.cancelled, "/a/f1.pdf", none, none, some "用户取消操作"⟩ (by decide)⟩

end PdfBox
